import Mathlib

/-!
Shallow embedding of the AntiAir heat-seeker lock-on system
(`lock_on.py`, `controller_link.py`, `missile_core.py`) and proofs of the
specification claims.  Real-valued quantities of the Python code are
modelled over `ℝ`; scores, which the code computes with IEEE infinities
(`float("inf")` / `-math.inf`), are modelled over `EReal`.
-/

open scoped Classical

noncomputable section

namespace AntiAir

/-- Vectors `Vector3 = Tuple[float, float, float]`. -/
abbrev Vec3 : Type := ℝ × ℝ × ℝ

/-- Embeds `_dot` from `lock_on.py`. -/
def dot3 (a b : Vec3) : ℝ :=
  a.1 * b.1 + a.2.1 * b.2.1 + a.2.2 * b.2.2

/-- Embeds `_norm` from `lock_on.py`. -/
def norm3 (v : Vec3) : ℝ :=
  Real.sqrt (dot3 v v)

/-- Embeds `_normalize` from `lock_on.py`. -/
def normalize3 (v : Vec3) : Vec3 :=
  if norm3 v = 0 then (0, 0, 0)
  else (v.1 / norm3 v, v.2.1 / norm3 v, v.2.2 / norm3 v)

/-- Embeds `_subtract` from `lock_on.py`. -/
def sub3 (a b : Vec3) : Vec3 :=
  (a.1 - b.1, a.2.1 - b.2.1, a.2.2 - b.2.2)

/-- Embeds `_distance` from `lock_on.py`. -/
def dist3 (a b : Vec3) : ℝ :=
  norm3 (sub3 a b)

/-- Embeds the `Target` dataclass from `lock_on.py`. -/
structure Target where
  identifier : String
  position : Vec3
  velocity : Vec3 := (0, 0, 0)
  heat_signature : ℝ := 1

/-- Embeds `Target.predicted_position`. -/
def Target.predicted_position (t : Target) (time : ℝ) : Vec3 :=
  (t.position.1 + t.velocity.1 * time,
   t.position.2.1 + t.velocity.2.1 * time,
   t.position.2.2 + t.velocity.2.2 * time)

/-- Embeds the `LockState` dataclass from `lock_on.py`. -/
structure LockState where
  target : Option Target := none
  progress : ℝ := 0
  locked : Bool := false
  last_seen : ℝ := 0

/-- Embeds the default-constructed `LockState()`. -/
def LockState.empty : LockState := {}

/-- Embeds the `LockOnSystem` dataclass from `lock_on.py`: configuration
plus the mutable lock state and internal clock. -/
structure LockOnSystem where
  max_range : ℝ := 2000
  fov_deg : ℝ := 45
  lock_on_time : ℝ := 1
  lost_lock_timeout : ℝ := 1 / 2
  state : LockState := {}
  current_time : ℝ := 0

/-- Embeds `math.radians`. -/
def radiansOf (deg : ℝ) : ℝ :=
  deg * Real.pi / 180

/-- Embeds `LockOnSystem._is_visible`: the early `return False` of the
Python code for `distance > max_range or distance == 0` is folded into the
first conjunct. -/
def LockOnSystem.isVisible (sys : LockOnSystem) (origin aim target_pos : Vec3) : Prop :=
  ¬ (norm3 (sub3 target_pos origin) > sys.max_range ∨ norm3 (sub3 target_pos origin) = 0) ∧
    dot3 (normalize3 aim) (normalize3 (sub3 target_pos origin)) ≥
      Real.cos (radiansOf sys.fov_deg)

/-- Embeds `LockOnSystem._score`; the Python `float("inf")` at distance 0
becomes `⊤ : EReal`. -/
def LockOnSystem.score (sys : LockOnSystem) (origin : Vec3) (t : Target) : EReal :=
  if dist3 origin t.position = 0 then ⊤
  else ((t.heat_signature / dist3 origin t.position +
      max (sys.max_range - dist3 origin t.position) 0 / max sys.max_range (1 / 1000000) : ℝ) : EReal)

/-- Embeds the loop of `LockOnSystem._pick_best`; the accumulator carries
the running `best` and `best_score` (initially `None` and `-math.inf`). -/
def LockOnSystem.pickBestAux (sys : LockOnSystem) (origin aim : Vec3) :
    Option Target × EReal → List Target → Option Target × EReal
  | acc, [] => acc
  | acc, t :: ts =>
    if sys.isVisible origin aim t.position then
      (if sys.score origin t > acc.2 then
        sys.pickBestAux origin aim (some t, sys.score origin t) ts
      else
        sys.pickBestAux origin aim acc ts)
    else
      sys.pickBestAux origin aim acc ts

/-- Embeds `LockOnSystem._pick_best`. -/
def LockOnSystem.pickBest (sys : LockOnSystem) (origin aim : Vec3)
    (targets : List Target) : Option Target :=
  (sys.pickBestAux origin aim (none, ⊥) targets).1

/-- Truthiness-and-identifier test used by `update`: Python
`b and u and b.identifier == u.identifier` on optional targets. -/
def sameId : Option Target → Option Target → Prop
  | some b, some u => b.identifier = u.identifier
  | _, _ => False

/-- Embeds `LockOnSystem.update`, the state-machine step.  The Python
method mutates `self`; here the whole system record is threaded. -/
def LockOnSystem.update (sys : LockOnSystem) (origin aim : Vec3)
    (targets : List Target) (dt : ℝ) : LockOnSystem :=
  let c := sys.current_time + max dt 0
  let best := sys.pickBest origin aim targets
  let s := sys.state
  if s.locked = true ∧ sameId best s.target then
    { sys with current_time := c, state := { s with last_seen := c, target := best } }
  else if s.locked = true ∧ s.target.isSome then
    (if sameId best s.target then
      { sys with current_time := c, state := { s with last_seen := c } }
    else if c - s.last_seen > sys.lost_lock_timeout then
      { sys with current_time := c, state := LockState.empty }
    else
      { sys with current_time := c })
  else
    let s1 := if best.isSome ∧ ¬ sameId best s.target then
        { s with target := best, progress := 0 }
      else s
    if sameId best s1.target then
      (if s1.progress + dt ≥ sys.lock_on_time then
        { sys with current_time := c, state :=
            { s1 with progress := sys.lock_on_time, locked := true, last_seen := c } }
      else
        { sys with current_time := c, state :=
            { s1 with progress := s1.progress + dt, last_seen := c } })
    else
      { sys with current_time := c, state := { s1 with progress := 0, target := none } }

/-- Embeds `LockOnSystem.status` (the defensive copy is value equality
here). -/
def LockOnSystem.status (sys : LockOnSystem) : LockState :=
  { target := sys.state.target, progress := sys.state.progress,
    locked := sys.state.locked, last_seen := sys.state.last_seen }

/-- Inputs of one simulation tick. -/
structure TickInput where
  origin : Vec3
  aim : Vec3
  targets : List Target
  dt : ℝ

/-- Iterated `update` over a list of tick inputs. -/
def LockOnSystem.run (sys : LockOnSystem) (inputs : List TickInput) : LockOnSystem :=
  inputs.foldl (fun s i => s.update i.origin i.aim i.targets i.dt) sys

/-- Sum of the raw `dt` values of a tick list. -/
def sumDt (inputs : List TickInput) : ℝ :=
  (inputs.map TickInput.dt).sum

/-- Sum of the clamped `max dt 0` values of a tick list (clock advance). -/
def sumClampDt (inputs : List TickInput) : ℝ :=
  (inputs.map (fun i => max i.dt 0)).sum

/-- Observable callbacks of the `MissileMainController` protocol in
`controller_link.py`; a `step` call is modelled as emitting the list of
callbacks it performs, in order. -/
inductive CtrlEvent where
  | setTrackingTarget : Option Target → CtrlEvent
  | onLock : Target → CtrlEvent
  | onLockLost : Option Target → CtrlEvent

/-- Embeds `LockOnControllerLink._target_changed` (arguments in source
order: new target first, previous second). -/
def targetChanged : Option Target → Option Target → Prop
  | none, none => False
  | none, some _ => True
  | some _, none => True
  | some n, some p => n.identifier ≠ p.identifier

/-- Embeds the `LockOnControllerLink` dataclass (the `controller` field is
replaced by the emitted event trace). -/
structure LockOnControllerLink where
  lock_on : LockOnSystem := {}
  last_state : LockState := {}

/-- Notification part of `LockOnControllerLink.step`: the controller
callbacks issued for previous snapshot `previous` and new state `state`,
in call order. -/
def stepEvents (previous state : LockState) : List CtrlEvent :=
  (if targetChanged state.target previous.target then
      [CtrlEvent.setTrackingTarget state.target]
    else []) ++
  (if previous.locked = false ∧ state.locked = true ∧ state.target.isSome then
      state.target.elim [] (fun t => [CtrlEvent.onLock t])
    else if previous.locked = true ∧ state.locked = false then
      CtrlEvent.onLockLost previous.target ::
        (if state.target = none then [CtrlEvent.setTrackingTarget none] else [])
    else [])

/-- Embeds `LockOnControllerLink.step`: advances the engine, emits the
controller callbacks, snapshots the new state, and returns it. -/
def LockOnControllerLink.step (link : LockOnControllerLink) (origin aim : Vec3)
    (targets : List Target) (dt : ℝ) :
    LockOnControllerLink × LockState × List CtrlEvent :=
  let sys := link.lock_on.update origin aim targets dt
  ({ lock_on := sys, last_state := sys.status }, sys.state,
    stepEvents link.last_state sys.state)

/-- Values returned by the three telemetry queries of the `EngineModule`
protocol in `missile_core.py`. -/
structure EngineModule where
  fuel_remaining : ℝ
  fuel_capacity : ℝ
  current_fuel_consumption : ℝ

/-- Embeds the `EngineReport` dataclass from `missile_core.py`. -/
structure EngineReport where
  fuel_remaining : ℝ
  fuel_capacity : ℝ
  consumption_rate : ℝ
  reserve_seconds : Option ℝ := none

/-- Embeds the `MissileCore` dataclass (the fields used by
`engine_report`). -/
structure MissileCore where
  position : Vec3 := (0, 0, 0)
  heading : Vec3 := (1, 0, 0)
  engine : Option EngineModule := none

/-- Embeds `MissileCore.engine_report`; the `RuntimeError` becomes an
`Except.error` carrying the source's message. -/
def MissileCore.engine_report (core : MissileCore) : Except String EngineReport :=
  match core.engine with
  | none => .error "Engine module not connected"
  | some engine =>
    .ok { fuel_remaining := engine.fuel_remaining,
          fuel_capacity := engine.fuel_capacity,
          consumption_rate := engine.current_fuel_consumption,
          reserve_seconds :=
            if engine.current_fuel_consumption ≤ 0 then none
            else some (engine.fuel_remaining / engine.current_fuel_consumption) }

/-- Invariant of `LockState` for a lock-on duration `L`: locked implies a
target is present with progress exactly `L`; positive progress implies a
target is present; and progress is between 0 and `L`. -/
def LockInv (L : ℝ) (s : LockState) : Prop :=
  (s.locked = true → s.target.isSome ∧ s.progress = L) ∧
  (0 < s.progress → s.target.isSome) ∧
  0 ≤ s.progress ∧ s.progress ≤ L

/-! ### Concrete instances used for examples and witnesses -/

/-- Default-configured engine (max_range 2000, fov 45, lock_on_time 1,
lost_lock_timeout 0.5, fresh state). -/
def sysW : LockOnSystem := {}

/-- A target 100 units down the x-axis. -/
def tgtW : Target := { identifier := "w", position := (100, 0, 0) }

/-- Configuration of the spec's selection example: `max_range = 1500`. -/
def sysC4 : LockOnSystem := { max_range := 1500 }

/-- Target A of the selection example: far but hot. -/
def tgtA : Target :=
  { identifier := "hot_far", position := (1200, 0, 0), heat_signature := 40 }

/-- Target B of the selection example: close and warm. -/
def tgtB : Target :=
  { identifier := "warm_close", position := (300, 0, 0), heat_signature := 5 }

/-- Engine unlocked and mid-acquisition on `tgtW` (progress 1/4). -/
def sysC6 : LockOnSystem :=
  { state := { target := some tgtW, progress := 1 / 4 } }

/-- Engine locked on `tgtW` since `last_seen = 0`, clock at 10. -/
def sysL : LockOnSystem :=
  { state := { target := some tgtW, progress := 1, locked := true, last_seen := 0 }
    current_time := 10 }

/-- Bridge whose engine is `sysL` with a consistent previous snapshot. -/
def linkL : LockOnControllerLink := { lock_on := sysL, last_state := sysL.state }

/-- Engine telemetry sample: 50 of 100 units left, burning 5 per second. -/
def engW : EngineModule :=
  { fuel_remaining := 50, fuel_capacity := 100, current_fuel_consumption := 5 }

/-- Missile core with the sample engine attached. -/
def coreW : MissileCore := { engine := some engW }

/-- Missile core with no engine attached. -/
def coreNone : MissileCore := {}

/-- Recognizes `onLock` callbacks. -/
def isOnLockEvent : CtrlEvent → Bool
  | CtrlEvent.onLock _ => true
  | _ => false

/-- Recognizes `onLockLost` callbacks. -/
def isOnLockLostEvent : CtrlEvent → Bool
  | CtrlEvent.onLockLost _ => true
  | _ => false

/-- Tick inputs for the acquisition witness: two half-second ticks with
`tgtW` in view. -/
def ticksW : List TickInput :=
  [{ origin := (0, 0, 0), aim := (1, 0, 0), targets := [tgtW], dt := 1 / 2 },
   { origin := (0, 0, 0), aim := (1, 0, 0), targets := [tgtW], dt := 1 / 2 }]

/-- Progress base of the unlocked accumulate branch of `update`: the
previous progress when the best candidate matches the tracked target,
otherwise 0 (the switch branch resets progress before accumulating). -/
def LockOnSystem.trackBase (sys : LockOnSystem) (o a : Vec3) (tg : List Target) : ℝ :=
  if sameId (sys.pickBest o a tg) sys.state.target then sys.state.progress else 0


/-! ### Basic lemmas about `sameId` and the branches of `update` -/

@[simp]
lemma sameId_none_left (u : Option Target) : ¬ sameId none u := by
  cases u <;> simp [sameId]

@[simp]
lemma sameId_none_right (b : Option Target) : ¬ sameId b none := by
  cases b <;> simp [sameId]

lemma sameId_some_some {b u : Target} :
    sameId (some b) (some u) ↔ b.identifier = u.identifier := Iff.rfl

/-- Clock advance of one `update` call: always `max dt 0`. -/
lemma update_current_time (sys : LockOnSystem) (o a : Vec3) (tg : List Target) (dt : ℝ) :
    (sys.update o a tg dt).current_time = sys.current_time + max dt 0 := by
  simp only [LockOnSystem.update]
  split_ifs <;> rfl

/-- Configuration field `max_range` is never changed by `update`. -/
lemma update_max_range (sys : LockOnSystem) (o a : Vec3) (tg : List Target) (dt : ℝ) :
    (sys.update o a tg dt).max_range = sys.max_range := by
  simp only [LockOnSystem.update]
  split_ifs <;> rfl

/-- Configuration field `fov_deg` is never changed by `update`. -/
lemma update_fov_deg (sys : LockOnSystem) (o a : Vec3) (tg : List Target) (dt : ℝ) :
    (sys.update o a tg dt).fov_deg = sys.fov_deg := by
  simp only [LockOnSystem.update]
  split_ifs <;> rfl

/-- Configuration field `lock_on_time` is never changed by `update`. -/
lemma update_lock_on_time (sys : LockOnSystem) (o a : Vec3) (tg : List Target) (dt : ℝ) :
    (sys.update o a tg dt).lock_on_time = sys.lock_on_time := by
  simp only [LockOnSystem.update]
  split_ifs <;> rfl

/-- Configuration field `lost_lock_timeout` is never changed by `update`. -/
lemma update_lost_lock_timeout (sys : LockOnSystem) (o a : Vec3) (tg : List Target) (dt : ℝ) :
    (sys.update o a tg dt).lost_lock_timeout = sys.lost_lock_timeout := by
  simp only [LockOnSystem.update]
  split_ifs <;> rfl

/-- Locked and the best candidate matches: refresh `last_seen` and the
stored snapshot. -/
lemma update_locked_refresh (sys : LockOnSystem) (o a : Vec3) (tg : List Target) (dt : ℝ)
    (h1 : sys.state.locked = true)
    (h2 : sameId (sys.pickBest o a tg) sys.state.target) :
    sys.update o a tg dt =
      { sys with current_time := sys.current_time + max dt 0, state :=
          { sys.state with last_seen := sys.current_time + max dt 0
                           target := sys.pickBest o a tg } } := by
  simp only [LockOnSystem.update]
  rw [if_pos ⟨h1, h2⟩]

/-- Locked, candidate not matching, within the occlusion tolerance: the
state is untouched (only the clock advances). -/
lemma update_locked_keep (sys : LockOnSystem) (o a : Vec3) (tg : List Target) (dt : ℝ)
    (h1 : sys.state.locked = true) (h2 : sys.state.target.isSome)
    (hnm : ¬ sameId (sys.pickBest o a tg) sys.state.target)
    (hto : ¬ (sys.current_time + max dt 0 - sys.state.last_seen > sys.lost_lock_timeout)) :
    sys.update o a tg dt = { sys with current_time := sys.current_time + max dt 0 } := by
  simp only [LockOnSystem.update]
  rw [if_neg (fun h => hnm h.2), if_pos ⟨h1, h2⟩, if_neg hnm, if_neg hto]

/-- Locked, candidate not matching, occlusion tolerance exceeded: reset to
the empty state. -/
lemma update_locked_drop (sys : LockOnSystem) (o a : Vec3) (tg : List Target) (dt : ℝ)
    (h1 : sys.state.locked = true) (h2 : sys.state.target.isSome)
    (hnm : ¬ sameId (sys.pickBest o a tg) sys.state.target)
    (hto : sys.current_time + max dt 0 - sys.state.last_seen > sys.lost_lock_timeout) :
    sys.update o a tg dt =
      { sys with current_time := sys.current_time + max dt 0, state := LockState.empty } := by
  simp only [LockOnSystem.update]
  rw [if_neg (fun h => hnm h.2), if_pos ⟨h1, h2⟩, if_neg hnm, if_pos hto]

/-- Unlocked, best candidate matches the tracked target, lock threshold
not yet reached: accumulate progress and refresh `last_seen`. -/
lemma update_tracking_cont (sys : LockOnSystem) (o a : Vec3) (tg : List Target) (dt : ℝ)
    (hl : sys.state.locked = false)
    (hm : sameId (sys.pickBest o a tg) sys.state.target)
    (hlt : ¬ (sys.state.progress + dt ≥ sys.lock_on_time)) :
    sys.update o a tg dt =
      { sys with current_time := sys.current_time + max dt 0, state :=
          { sys.state with progress := sys.state.progress + dt
                           last_seen := sys.current_time + max dt 0 } } := by
  have hc1 : ¬ (sys.state.locked = true ∧ sameId (sys.pickBest o a tg) sys.state.target) := by
    rintro ⟨h, -⟩; rw [hl] at h; exact Bool.false_ne_true h
  have hc2 : ¬ (sys.state.locked = true ∧ sys.state.target.isSome) := by
    rintro ⟨h, -⟩; rw [hl] at h; exact Bool.false_ne_true h
  have hsw : ¬ ((sys.pickBest o a tg).isSome ∧ ¬ sameId (sys.pickBest o a tg) sys.state.target) :=
    fun h => h.2 hm
  simp only [LockOnSystem.update]
  rw [if_neg hc1, if_neg hc2, if_neg hsw, if_pos hm, if_neg hlt]

/-- Unlocked, best candidate matches the tracked target, lock threshold
reached: lock with progress clamped to `lock_on_time`. -/
lemma update_tracking_lock (sys : LockOnSystem) (o a : Vec3) (tg : List Target) (dt : ℝ)
    (hl : sys.state.locked = false)
    (hm : sameId (sys.pickBest o a tg) sys.state.target)
    (hge : sys.state.progress + dt ≥ sys.lock_on_time) :
    sys.update o a tg dt =
      { sys with current_time := sys.current_time + max dt 0, state :=
          { sys.state with progress := sys.lock_on_time
                           locked := true
                           last_seen := sys.current_time + max dt 0 } } := by
  have hc1 : ¬ (sys.state.locked = true ∧ sameId (sys.pickBest o a tg) sys.state.target) := by
    rintro ⟨h, -⟩; rw [hl] at h; exact Bool.false_ne_true h
  have hc2 : ¬ (sys.state.locked = true ∧ sys.state.target.isSome) := by
    rintro ⟨h, -⟩; rw [hl] at h; exact Bool.false_ne_true h
  have hsw : ¬ ((sys.pickBest o a tg).isSome ∧ ¬ sameId (sys.pickBest o a tg) sys.state.target) :=
    fun h => h.2 hm
  simp only [LockOnSystem.update]
  rw [if_neg hc1, if_neg hc2, if_neg hsw, if_pos hm, if_pos hge]

/-- Unlocked, best candidate present but not matching the tracked target:
switch to it, restart progress from 0, then accumulate this tick's `dt`
(continuation case, threshold not reached). -/
lemma update_switch_cont (sys : LockOnSystem) (o a : Vec3) (tg : List Target) (dt : ℝ)
    (b : Target) (hl : sys.state.locked = false)
    (hb : sys.pickBest o a tg = some b)
    (hns : ¬ sameId (some b) sys.state.target)
    (hlt : ¬ ((0 : ℝ) + dt ≥ sys.lock_on_time)) :
    sys.update o a tg dt =
      { sys with current_time := sys.current_time + max dt 0, state :=
          { sys.state with target := some b
                           progress := 0 + dt
                           last_seen := sys.current_time + max dt 0 } } := by
  simp only [LockOnSystem.update, hb]
  split_ifs <;> first | rfl | (exfalso; simp_all [sameId])

/-- Unlocked, best candidate present but not matching the tracked target,
and this single tick already meets the threshold: switch and lock. -/
lemma update_switch_lock (sys : LockOnSystem) (o a : Vec3) (tg : List Target) (dt : ℝ)
    (b : Target) (hl : sys.state.locked = false)
    (hb : sys.pickBest o a tg = some b)
    (hns : ¬ sameId (some b) sys.state.target)
    (hge : (0 : ℝ) + dt ≥ sys.lock_on_time) :
    sys.update o a tg dt =
      { sys with current_time := sys.current_time + max dt 0, state :=
          { sys.state with target := some b
                           progress := sys.lock_on_time
                           locked := true
                           last_seen := sys.current_time + max dt 0 } } := by
  simp only [LockOnSystem.update, hb]
  split_ifs <;> first | rfl | (exfalso; simp_all [sameId])

/-- Unlocked and no visible candidate: clear the tracked target and reset
progress. -/
lemma update_unlocked_nobest (sys : LockOnSystem) (o a : Vec3) (tg : List Target) (dt : ℝ)
    (hl : sys.state.locked = false)
    (hb : sys.pickBest o a tg = none) :
    sys.update o a tg dt =
      { sys with current_time := sys.current_time + max dt 0, state :=
          { sys.state with progress := 0
                           target := none } } := by
  simp only [LockOnSystem.update, hb]
  split_ifs <;> first | rfl | (exfalso; simp_all [sameId])

/-! ### Candidate selection depends only on the configuration fields -/

lemma isVisible_congr {sys sys' : LockOnSystem} (h1 : sys'.max_range = sys.max_range)
    (h2 : sys'.fov_deg = sys.fov_deg) (o a p : Vec3) :
    sys'.isVisible o a p ↔ sys.isVisible o a p := by
  simp only [LockOnSystem.isVisible, h1, h2]

lemma score_congr {sys sys' : LockOnSystem} (h1 : sys'.max_range = sys.max_range)
    (o : Vec3) (t : Target) : sys'.score o t = sys.score o t := by
  simp only [LockOnSystem.score, h1]

lemma pickBestAux_congr {sys sys' : LockOnSystem} (h1 : sys'.max_range = sys.max_range)
    (h2 : sys'.fov_deg = sys.fov_deg) (o a : Vec3) (ts : List Target) :
    ∀ acc, sys'.pickBestAux o a acc ts = sys.pickBestAux o a acc ts := by
  induction ts with
  | nil => intro acc; rfl
  | cons t ts ih =>
    intro acc
    simp only [LockOnSystem.pickBestAux, score_congr h1, ih]
    by_cases hv : sys.isVisible o a t.position
    · rw [if_pos ((isVisible_congr h1 h2 o a t.position).2 hv), if_pos hv]
    · rw [if_neg (fun h => hv ((isVisible_congr h1 h2 o a t.position).1 h)), if_neg hv]

lemma pickBest_congr {sys sys' : LockOnSystem} (h1 : sys'.max_range = sys.max_range)
    (h2 : sys'.fov_deg = sys.fov_deg) (o a : Vec3) (ts : List Target) :
    sys'.pickBest o a ts = sys.pickBest o a ts := by
  simp only [LockOnSystem.pickBest, pickBestAux_congr h1 h2]

/-- Candidate selection is unchanged by an `update` call (the state-machine
step never alters the configuration). -/
lemma update_pickBest (sys : LockOnSystem) (o a : Vec3) (tg : List Target) (dt : ℝ)
    (o' a' : Vec3) (tg' : List Target) :
    (sys.update o a tg dt).pickBest o' a' tg' = sys.pickBest o' a' tg' :=
  pickBest_congr (update_max_range sys o a tg dt) (update_fov_deg sys o a tg dt) o' a' tg'

/-! ### Multi-tick runs -/

lemma run_nil (sys : LockOnSystem) : sys.run [] = sys := rfl

lemma run_cons (sys : LockOnSystem) (i : TickInput) (is : List TickInput) :
    sys.run (i :: is) = (sys.update i.origin i.aim i.targets i.dt).run is := rfl

lemma run_lock_on_time (sys : LockOnSystem) (inputs : List TickInput) :
    (sys.run inputs).lock_on_time = sys.lock_on_time := by
  induction inputs generalizing sys with
  | nil => rfl
  | cons i is ih => rw [run_cons, ih, update_lock_on_time]

lemma sumDt_nonneg {inputs : List TickInput} (h : ∀ i ∈ inputs, 0 ≤ i.dt) :
    0 ≤ sumDt inputs := by
  refine List.sum_nonneg ?_
  intro x hx
  obtain ⟨i, hi, rfl⟩ := List.mem_map.1 hx
  exact h i hi

/-- Once locked with the matching candidate visible at every tick, a run
keeps the lock and freezes progress. -/
lemma run_locked_stay (inputs : List TickInput) :
    ∀ (sys : LockOnSystem) (t : Target),
      sys.state.target = some t → sys.state.locked = true →
      (∀ i ∈ inputs, sys.pickBest i.origin i.aim i.targets = some t) →
      (sys.run inputs).state.target = some t ∧ (sys.run inputs).state.locked = true ∧
        (sys.run inputs).state.progress = sys.state.progress := by
  induction inputs with
  | nil => intro sys t ht hl _; exact ⟨ht, hl, rfl⟩
  | cons i is ih =>
    intro sys t ht hl hbest
    have hb : sys.pickBest i.origin i.aim i.targets = some t := hbest i (by simp)
    have hm : sameId (sys.pickBest i.origin i.aim i.targets) sys.state.target := by
      rw [hb, ht]; exact rfl
    rw [run_cons]
    have hup := update_locked_refresh sys i.origin i.aim i.targets i.dt hl hm
    have h1t : (sys.update i.origin i.aim i.targets i.dt).state.target = some t := by
      rw [hup]; simpa using hb
    have h1l : (sys.update i.origin i.aim i.targets i.dt).state.locked = true := by
      rw [hup]; simpa using hl
    have h1p : (sys.update i.origin i.aim i.targets i.dt).state.progress
        = sys.state.progress := by rw [hup]
    have h1best : ∀ j ∈ is,
        (sys.update i.origin i.aim i.targets i.dt).pickBest j.origin j.aim j.targets
          = some t := by
      intro j hj
      rw [update_pickBest]
      exact hbest j (List.mem_cons_of_mem _ hj)
    obtain ⟨a1, a2, a3⟩ := ih _ t h1t h1l h1best
    exact ⟨a1, a2, a3.trans h1p⟩

/-- While unlocked and tracking `t`, with `t` the best candidate on every
tick and non-negative `dt`s, a run adds exactly the summed `dt` to the
progress, locking precisely when the accumulated total reaches
`lock_on_time`. -/
lemma run_tracking (inputs : List TickInput) :
    ∀ (sys : LockOnSystem) (t : Target),
      sys.state.target = some t → sys.state.locked = false →
      (∀ i ∈ inputs, sys.pickBest i.origin i.aim i.targets = some t) →
      (∀ i ∈ inputs, 0 ≤ i.dt) →
      (sys.run inputs).state.target = some t ∧
      ((sys.run inputs).state.locked = true ↔
        (inputs ≠ [] ∧ sys.state.progress + sumDt inputs ≥ sys.lock_on_time)) ∧
      (sys.run inputs).state.progress =
        (if inputs ≠ [] ∧ sys.state.progress + sumDt inputs ≥ sys.lock_on_time
         then sys.lock_on_time else sys.state.progress + sumDt inputs) := by
  induction inputs with
  | nil =>
    intro sys t ht hl _ _
    refine ⟨ht, by simp [run_nil, hl, sumDt], by simp [run_nil, sumDt]⟩
  | cons i is ih =>
    intro sys t ht hl hbest hdt
    have hb : sys.pickBest i.origin i.aim i.targets = some t := hbest i (by simp)
    have hm : sameId (sys.pickBest i.origin i.aim i.targets) sys.state.target := by
      rw [hb, ht]; exact rfl
    have hsum : sumDt (i :: is) = i.dt + sumDt is := by simp [sumDt]
    have hrest0 : 0 ≤ sumDt is :=
      sumDt_nonneg (fun j hj => hdt j (List.mem_cons_of_mem _ hj))
    have h1best : ∀ j ∈ is,
        (sys.update i.origin i.aim i.targets i.dt).pickBest j.origin j.aim j.targets
          = some t := by
      intro j hj
      rw [update_pickBest]
      exact hbest j (List.mem_cons_of_mem _ hj)
    rw [run_cons]
    by_cases hge : sys.state.progress + i.dt ≥ sys.lock_on_time
    · have hup := update_tracking_lock sys i.origin i.aim i.targets i.dt hl hm hge
      have h1t : (sys.update i.origin i.aim i.targets i.dt).state.target = some t := by
        rw [hup]; simpa using ht
      have h1l : (sys.update i.origin i.aim i.targets i.dt).state.locked = true := by
        rw [hup]
      have h1p : (sys.update i.origin i.aim i.targets i.dt).state.progress
          = sys.lock_on_time := by rw [hup]
      obtain ⟨a1, a2, a3⟩ := run_locked_stay is _ t h1t h1l h1best
      have hcond : (i :: is) ≠ [] ∧
          sys.state.progress + sumDt (i :: is) ≥ sys.lock_on_time := by
        refine ⟨by simp, ?_⟩
        rw [hsum]
        linarith
      refine ⟨a1, ?_, ?_⟩
      · rw [a2]
        exact iff_of_true rfl hcond
      · rw [a3, h1p, if_pos hcond]
    · have hup := update_tracking_cont sys i.origin i.aim i.targets i.dt hl hm hge
      have h1t : (sys.update i.origin i.aim i.targets i.dt).state.target = some t := by
        rw [hup]; simpa using ht
      have h1l : (sys.update i.origin i.aim i.targets i.dt).state.locked = false := by
        rw [hup]; simpa using hl
      have h1p : (sys.update i.origin i.aim i.targets i.dt).state.progress
          = sys.state.progress + i.dt := by rw [hup]
      have h1dt : ∀ j ∈ is, 0 ≤ j.dt := fun j hj => hdt j (List.mem_cons_of_mem _ hj)
      obtain ⟨a1, a2, a3⟩ := ih _ t h1t h1l h1best h1dt
      rw [h1p, update_lock_on_time] at a2 a3
      have hCC : (is ≠ [] ∧ sys.state.progress + i.dt + sumDt is ≥ sys.lock_on_time) ↔
          ((i :: is) ≠ [] ∧ sys.state.progress + sumDt (i :: is) ≥ sys.lock_on_time) := by
        rw [hsum]
        constructor
        · rintro ⟨-, h2⟩
          exact ⟨by simp, by linarith⟩
        · rintro ⟨-, h2⟩
          rcases eq_or_ne is [] with rfl | hne
          · exfalso
            simp only [sumDt, List.map_nil, List.sum_nil, add_zero] at h2
            exact hge (by linarith)
          · exact ⟨hne, by linarith⟩
      refine ⟨a1, a2.trans hCC, ?_⟩
      rw [a3, hsum]
      simp only [hCC, hsum]
      split_ifs with h
      · rfl
      · ring

/-- Acquisition from a state with no tracked target: with `t` the best
candidate on every tick of a non-empty run with non-negative `dt`s, the
run tracks `t`, accumulates exactly the summed `dt`, and locks precisely
when that sum reaches `lock_on_time`. -/
lemma run_from_none (inputs : List TickInput) (sys : LockOnSystem) (t : Target)
    (ht : sys.state.target = none) (hl : sys.state.locked = false)
    (hne : inputs ≠ [])
    (hbest : ∀ i ∈ inputs, sys.pickBest i.origin i.aim i.targets = some t)
    (hdt : ∀ i ∈ inputs, 0 ≤ i.dt) :
    (sys.run inputs).state.target = some t ∧
    ((sys.run inputs).state.locked = true ↔ sumDt inputs ≥ sys.lock_on_time) ∧
    (sys.run inputs).state.progress =
      (if sumDt inputs ≥ sys.lock_on_time then sys.lock_on_time else sumDt inputs) := by
  obtain ⟨i, is, rfl⟩ := List.exists_cons_of_ne_nil hne
  have hb : sys.pickBest i.origin i.aim i.targets = some t := hbest i (by simp)
  have hns : ¬ sameId (some t) sys.state.target := by rw [ht]; exact sameId_none_right _
  have hsum : sumDt (i :: is) = i.dt + sumDt is := by simp [sumDt]
  have hrest0 : 0 ≤ sumDt is :=
    sumDt_nonneg (fun j hj => hdt j (List.mem_cons_of_mem _ hj))
  have h1best : ∀ j ∈ is,
      (sys.update i.origin i.aim i.targets i.dt).pickBest j.origin j.aim j.targets
        = some t := by
    intro j hj
    rw [update_pickBest]
    exact hbest j (List.mem_cons_of_mem _ hj)
  rw [run_cons]
  by_cases hge : (0 : ℝ) + i.dt ≥ sys.lock_on_time
  · have hup := update_switch_lock sys i.origin i.aim i.targets i.dt t hl hb hns hge
    have h1t : (sys.update i.origin i.aim i.targets i.dt).state.target = some t := by
      rw [hup]
    have h1l : (sys.update i.origin i.aim i.targets i.dt).state.locked = true := by
      rw [hup]
    have h1p : (sys.update i.origin i.aim i.targets i.dt).state.progress
        = sys.lock_on_time := by rw [hup]
    obtain ⟨a1, a2, a3⟩ := run_locked_stay is _ t h1t h1l h1best
    have hcond : sumDt (i :: is) ≥ sys.lock_on_time := by
      rw [hsum]; linarith
    refine ⟨a1, ?_, ?_⟩
    · rw [a2]
      exact iff_of_true rfl hcond
    · rw [a3, h1p, if_pos hcond]
  · have hup := update_switch_cont sys i.origin i.aim i.targets i.dt t hl hb hns hge
    have h1t : (sys.update i.origin i.aim i.targets i.dt).state.target = some t := by
      rw [hup]
    have h1l : (sys.update i.origin i.aim i.targets i.dt).state.locked = false := by
      rw [hup]; simpa using hl
    have h1p : (sys.update i.origin i.aim i.targets i.dt).state.progress
        = 0 + i.dt := by rw [hup]
    have h1dt : ∀ j ∈ is, 0 ≤ j.dt := fun j hj => hdt j (List.mem_cons_of_mem _ hj)
    obtain ⟨a1, a2, a3⟩ := run_tracking is _ t h1t h1l h1best h1dt
    rw [h1p, update_lock_on_time] at a2 a3
    have hCC : (is ≠ [] ∧ (0 : ℝ) + i.dt + sumDt is ≥ sys.lock_on_time) ↔
        (sumDt (i :: is) ≥ sys.lock_on_time) := by
      rw [hsum]
      constructor
      · rintro ⟨-, h2⟩; linarith
      · intro h2
        rcases eq_or_ne is [] with rfl | hne'
        · exfalso
          simp only [sumDt, List.map_nil, List.sum_nil, add_zero] at h2
          exact hge (by linarith)
        · exact ⟨hne', by linarith⟩
    refine ⟨a1, a2.trans hCC, ?_⟩
    rw [a3, hsum]
    simp only [hCC, hsum]
    split_ifs with h
    · rfl
    · ring

lemma sumClampDt_nonneg (inputs : List TickInput) : 0 ≤ sumClampDt inputs := by
  refine List.sum_nonneg ?_
  intro x hx
  obtain ⟨i, -, rfl⟩ := List.mem_map.1 hx
  exact le_max_right _ _

/-- Occlusion tolerance over a run: while locked, if no tick's best
candidate matches the locked identifier but the total clamped elapsed time
stays within `lost_lock_timeout` of `last_seen`, the lock state is
completely unchanged. -/
lemma run_locked_occluded (inputs : List TickInput) :
    ∀ (sys : LockOnSystem) (u : Target),
      sys.state.target = some u → sys.state.locked = true →
      (∀ i ∈ inputs, ∀ b, sys.pickBest i.origin i.aim i.targets = some b →
        b.identifier ≠ u.identifier) →
      sys.current_time + sumClampDt inputs - sys.state.last_seen ≤ sys.lost_lock_timeout →
      (sys.run inputs).state = sys.state := by
  induction inputs with
  | nil => intro sys u _ _ _ _; rfl
  | cons i is ih =>
    intro sys u ht hl hnb hocc
    have hnm : ¬ sameId (sys.pickBest i.origin i.aim i.targets) sys.state.target := by
      rw [ht]
      cases hpb : sys.pickBest i.origin i.aim i.targets with
      | none => exact sameId_none_left _
      | some b =>
        intro hs
        exact hnb i (by simp) b hpb hs
    have hsum : sumClampDt (i :: is) = max i.dt 0 + sumClampDt is := by simp [sumClampDt]
    have hrest0 : 0 ≤ sumClampDt is := sumClampDt_nonneg is
    have hstep : sys.current_time + max i.dt 0 - sys.state.last_seen
        ≤ sys.lost_lock_timeout := by
      rw [hsum] at hocc; linarith
    have hup := update_locked_keep sys i.origin i.aim i.targets i.dt hl
      (by rw [ht]; rfl) hnm (not_lt.2 hstep)
    rw [run_cons]
    have hres := ih (sys.update i.origin i.aim i.targets i.dt) u
      (by rw [hup]; exact ht) (by rw [hup]; exact hl)
      (fun j hj b hpb hid => hnb j (List.mem_cons_of_mem _ hj) b
        (by rwa [update_pickBest] at hpb) hid)
      (by rw [hup]
          show sys.current_time + max i.dt 0 + sumClampDt is - sys.state.last_seen
            ≤ sys.lost_lock_timeout
          rw [hsum] at hocc
          linarith)
    rw [hres, hup]

/-! ### The lock-state invariant -/

/-- One `update` call with non-negative `dt` preserves the invariant. -/
lemma update_preserves_LockInv (sys : LockOnSystem) (o a : Vec3) (tg : List Target)
    (dt : ℝ) (hL : 0 ≤ sys.lock_on_time) (hdt : 0 ≤ dt)
    (hInv : LockInv sys.lock_on_time sys.state) :
    LockInv sys.lock_on_time ((sys.update o a tg dt).state) := by
  obtain ⟨i1, i2, i3, i4⟩ := hInv
  simp only [LockOnSystem.update]
  split_ifs with h1 h2 h3 h4 h5 h6 h7 h8 h9 <;>
    simp_all [LockInv, LockState.empty, sameId]
  · rcases hpb : sys.pickBest o a tg with _ | b <;>
      rcases hst : sys.state.target with _ | u <;>
      rw [hpb, hst] at h1 <;> simp_all
  · exact le_of_lt h7
  · rcases hpb : sys.pickBest o a tg with _ | b <;>
      rcases hst : sys.state.target with _ | u <;>
      rw [hpb, hst] at h8 <;> simp_all
  · rcases hpb : sys.pickBest o a tg with _ | b <;>
      rcases hst : sys.state.target with _ | u <;>
      rw [hpb, hst] at h8 <;> simp_all
    constructor <;> linarith

/-! ### Selection properties of `pickBest` -/

lemma score_ne_bot (sys : LockOnSystem) (o : Vec3) (t : Target) : sys.score o t ≠ ⊥ := by
  rw [LockOnSystem.score]
  split_ifs
  · simp
  · exact EReal.coe_ne_bot _

lemma bot_lt_score (sys : LockOnSystem) (o : Vec3) (t : Target) :
    (⊥ : EReal) < sys.score o t :=
  Ne.bot_lt (score_ne_bot sys o t)

/-- A candidate returned by `pickBestAux` either was the accumulator or is
a visible member of the list. -/
lemma pickBestAux_mem (sys : LockOnSystem) (o a : Vec3) (ts : List Target) :
    ∀ acc t, (sys.pickBestAux o a acc ts).1 = some t →
      acc.1 = some t ∨ (t ∈ ts ∧ sys.isVisible o a t.position) := by
  induction ts with
  | nil => intro acc t h; exact Or.inl h
  | cons x xs ih =>
    intro acc t h
    simp only [LockOnSystem.pickBestAux] at h
    by_cases hv : sys.isVisible o a x.position
    · rw [if_pos hv] at h
      by_cases hs : sys.score o x > acc.2
      · rw [if_pos hs] at h
        rcases ih _ t h with h' | h'
        · obtain rfl : x = t := Option.some.inj h'
          exact Or.inr ⟨List.mem_cons_self _ _, hv⟩
        · exact Or.inr ⟨List.mem_cons_of_mem _ h'.1, h'.2⟩
      · rw [if_neg hs] at h
        rcases ih _ t h with h' | h'
        · exact Or.inl h'
        · exact Or.inr ⟨List.mem_cons_of_mem _ h'.1, h'.2⟩
    · rw [if_neg hv] at h
      rcases ih _ t h with h' | h'
      · exact Or.inl h'
      · exact Or.inr ⟨List.mem_cons_of_mem _ h'.1, h'.2⟩

/-- Soundness: `pickBest` only returns visible members of the input
list. -/
lemma pickBest_mem (sys : LockOnSystem) (o a : Vec3) (ts : List Target) (t : Target)
    (h : sys.pickBest o a ts = some t) :
    t ∈ ts ∧ sys.isVisible o a t.position := by
  rcases pickBestAux_mem sys o a ts (none, ⊥) t h with h' | h'
  · exact absurd h' (by simp)
  · exact h'

lemma pickBestAux_snd_mono (sys : LockOnSystem) (o a : Vec3) (ts : List Target) :
    ∀ acc, acc.2 ≤ (sys.pickBestAux o a acc ts).2 := by
  induction ts with
  | nil => intro acc; exact le_refl _
  | cons x xs ih =>
    intro acc
    simp only [LockOnSystem.pickBestAux]
    by_cases hv : sys.isVisible o a x.position
    · rw [if_pos hv]
      by_cases hs : sys.score o x > acc.2
      · rw [if_pos hs]
        exact le_trans (le_of_lt hs) (ih (some x, sys.score o x))
      · rw [if_neg hs]
        exact ih acc
    · rw [if_neg hv]
      exact ih acc

/-- The running best score dominates the score of every visible element of
the remaining list. -/
lemma pickBestAux_snd_ge (sys : LockOnSystem) (o a : Vec3) (ts : List Target) :
    ∀ acc t, t ∈ ts → sys.isVisible o a t.position →
      sys.score o t ≤ (sys.pickBestAux o a acc ts).2 := by
  induction ts with
  | nil => intro acc t h; exact absurd h (List.not_mem_nil t)
  | cons x xs ih =>
    intro acc t ht hv
    simp only [LockOnSystem.pickBestAux]
    rcases List.mem_cons.1 ht with rfl | hmem
    · rw [if_pos hv]
      by_cases hs : sys.score o t > acc.2
      · rw [if_pos hs]
        exact le_trans (le_refl _) (pickBestAux_snd_mono sys o a xs (some t, sys.score o t))
      · rw [if_neg hs]
        exact le_trans (not_lt.1 hs) (pickBestAux_snd_mono sys o a xs acc)
    · by_cases hvx : sys.isVisible o a x.position
      · rw [if_pos hvx]
        by_cases hs : sys.score o x > acc.2
        · rw [if_pos hs]; exact ih _ t hmem hv
        · rw [if_neg hs]; exact ih _ t hmem hv
      · rw [if_neg hvx]; exact ih _ t hmem hv

/-- The running best score is the score of the running best candidate. -/
lemma pickBestAux_rel (sys : LockOnSystem) (o a : Vec3) (ts : List Target) :
    ∀ acc, (∀ t, acc.1 = some t → acc.2 = sys.score o t) →
      ∀ t, (sys.pickBestAux o a acc ts).1 = some t →
        (sys.pickBestAux o a acc ts).2 = sys.score o t := by
  induction ts with
  | nil => intro acc hacc t h; exact hacc t h
  | cons x xs ih =>
    intro acc hacc t h
    simp only [LockOnSystem.pickBestAux] at h ⊢
    by_cases hv : sys.isVisible o a x.position
    · rw [if_pos hv] at h ⊢
      by_cases hs : sys.score o x > acc.2
      · rw [if_pos hs] at h ⊢
        exact ih _ (fun t' h' => by rw [← Option.some.inj h']) t h
      · rw [if_neg hs] at h ⊢
        exact ih _ hacc t h
    · rw [if_neg hv] at h ⊢
      exact ih _ hacc t h

/-- Optimality: the returned candidate's score dominates the score of
every visible input. -/
lemma pickBest_optimal (sys : LockOnSystem) (o a : Vec3) (ts : List Target) (t : Target)
    (h : sys.pickBest o a ts = some t) :
    ∀ u ∈ ts, sys.isVisible o a u.position → sys.score o u ≤ sys.score o t := by
  intro u hu hvu
  have h2 := pickBestAux_snd_ge sys o a ts (none, ⊥) u hu hvu
  have h3 := pickBestAux_rel sys o a ts (none, ⊥) (by simp) t h
  rwa [h3] at h2

lemma pickBestAux_stay (sys : LockOnSystem) (o a : Vec3) (ts : List Target) :
    ∀ acc, (∀ t ∈ ts, sys.isVisible o a t.position → sys.score o t ≤ acc.2) →
      sys.pickBestAux o a acc ts = acc := by
  induction ts with
  | nil => intro acc _; rfl
  | cons x xs ih =>
    intro acc hle
    simp only [LockOnSystem.pickBestAux]
    by_cases hv : sys.isVisible o a x.position
    · rw [if_pos hv, if_neg (not_lt.2 (hle x (List.mem_cons_self _ _) hv))]
      exact ih acc (fun t ht hvt => hle t (List.mem_cons_of_mem _ ht) hvt)
    · rw [if_neg hv]
      exact ih acc (fun t ht hvt => hle t (List.mem_cons_of_mem _ ht) hvt)

lemma pickBestAux_lt (sys : LockOnSystem) (o a : Vec3) (ts : List Target) (X : EReal) :
    ∀ acc, acc.2 < X → (∀ t ∈ ts, sys.isVisible o a t.position → sys.score o t < X) →
      (sys.pickBestAux o a acc ts).2 < X := by
  induction ts with
  | nil => intro acc hacc _; exact hacc
  | cons x xs ih =>
    intro acc hacc hlt
    simp only [LockOnSystem.pickBestAux]
    by_cases hv : sys.isVisible o a x.position
    · rw [if_pos hv]
      by_cases hs : sys.score o x > acc.2
      · rw [if_pos hs]
        exact ih _ (hlt x (List.mem_cons_self _ _) hv)
          (fun t ht hvt => hlt t (List.mem_cons_of_mem _ ht) hvt)
      · rw [if_neg hs]
        exact ih _ hacc (fun t ht hvt => hlt t (List.mem_cons_of_mem _ ht) hvt)
    · rw [if_neg hv]
      exact ih _ hacc (fun t ht hvt => hlt t (List.mem_cons_of_mem _ ht) hvt)

lemma pickBestAux_append (sys : LockOnSystem) (o a : Vec3) (l1 l2 : List Target) :
    ∀ acc, sys.pickBestAux o a acc (l1 ++ l2)
      = sys.pickBestAux o a (sys.pickBestAux o a acc l1) l2 := by
  induction l1 with
  | nil => intro acc; rfl
  | cons x xs ih =>
    intro acc
    simp only [List.cons_append, List.append_eq, LockOnSystem.pickBestAux]
    by_cases hv : sys.isVisible o a x.position
    · rw [if_pos hv, if_pos hv]
      by_cases hs : sys.score o x > acc.2
      · rw [if_pos hs, if_pos hs, ih]
      · rw [if_neg hs, if_neg hs, ih]
    · rw [if_neg hv, if_neg hv, ih]

/-- First-of-the-maxima characterization: `pickBest` returns the first
visible candidate whose score weakly dominates every visible candidate and
strictly dominates every earlier visible candidate. -/
lemma pickBest_first_max (sys : LockOnSystem) (o a : Vec3) (l1 l2 : List Target)
    (t : Target) (hv : sys.isVisible o a t.position)
    (hmax : ∀ u ∈ l1 ++ t :: l2, sys.isVisible o a u.position →
      sys.score o u ≤ sys.score o t)
    (hfirst : ∀ u ∈ l1, sys.isVisible o a u.position →
      sys.score o u < sys.score o t) :
    sys.pickBest o a (l1 ++ t :: l2) = some t := by
  have hacc1 : (sys.pickBestAux o a (none, ⊥) l1).2 < sys.score o t :=
    pickBestAux_lt sys o a l1 (sys.score o t) (none, ⊥) (bot_lt_score sys o t) hfirst
  rw [LockOnSystem.pickBest, pickBestAux_append]
  simp only [LockOnSystem.pickBestAux]
  rw [if_pos hv, if_pos hacc1]
  rw [pickBestAux_stay sys o a l2 _
    (fun u hu hvu => hmax u (by simp [List.mem_append, hu]) hvu)]

/-! ### Concrete evaluation helpers for points on the x-axis -/

lemma norm3_axis (x : ℝ) : norm3 (x, 0, 0) = |x| := by
  have h : dot3 (x, 0, 0) (x, 0, 0) = x * x := by simp [dot3]
  rw [norm3, h, Real.sqrt_mul_self_eq_abs]

lemma norm3_axis_nonneg (x : ℝ) (hx : 0 ≤ x) : norm3 (x, 0, 0) = x := by
  rw [norm3_axis, abs_of_nonneg hx]

lemma normalize3_axis (x : ℝ) (hx : 0 < x) : normalize3 (x, 0, 0) = (1, 0, 0) := by
  have h : norm3 (x, 0, 0) = x := norm3_axis_nonneg x hx.le
  rw [normalize3, h, if_neg hx.ne']
  simp [div_self hx.ne']

/-- Visibility of an x-axis point from the origin looking along the
x-axis, for any field of view. -/
lemma isVisible_xaxis (sys : LockOnSystem) (x : ℝ) (hx : 0 < x)
    (hle : x ≤ sys.max_range) :
    sys.isVisible (0, 0, 0) (1, 0, 0) (x, 0, 0) := by
  have hsub : sub3 (x, 0, 0) ((0 : ℝ), (0 : ℝ), (0 : ℝ)) = (x, 0, 0) := by
    simp [sub3]
  simp only [LockOnSystem.isVisible, hsub]
  constructor
  · rintro (h | h)
    · exact absurd h (not_lt.2 (by rw [norm3_axis_nonneg x hx.le]; exact hle))
    · rw [norm3_axis_nonneg x hx.le] at h
      exact hx.ne' h
  · rw [normalize3_axis 1 one_pos, normalize3_axis x hx]
    have hd : dot3 (1, 0, 0) (1, 0, 0) = 1 := by simp [dot3]
    rw [ge_iff_le, hd]
    exact Real.cos_le_one _

lemma dist3_origin_axis (x : ℝ) (hx : 0 ≤ x) :
    dist3 ((0 : ℝ), (0 : ℝ), (0 : ℝ)) (x, 0, 0) = x := by
  have hsub : sub3 ((0 : ℝ), (0 : ℝ), (0 : ℝ)) (x, 0, 0) = (-x, 0, 0) := by
    simp [sub3]
  rw [dist3, hsub, norm3_axis, abs_neg, abs_of_nonneg hx]

/-- Score of a target on the positive x-axis, seen from the origin. -/
lemma score_xaxis (sys : LockOnSystem) (t : Target) (x : ℝ) (hx : 0 < x)
    (hpos : t.position = (x, 0, 0)) :
    sys.score (0, 0, 0) t =
      ((t.heat_signature / x +
        max (sys.max_range - x) 0 / max sys.max_range (1 / 1000000) : ℝ) : EReal) := by
  have hd : dist3 ((0 : ℝ), (0 : ℝ), (0 : ℝ)) t.position = x := by
    rw [hpos]; exact dist3_origin_axis x hx.le
  rw [LockOnSystem.score, hd, if_neg hx.ne']

lemma pickBest_nil (sys : LockOnSystem) (o a : Vec3) : sys.pickBest o a [] = none := rfl

lemma pickBest_single (sys : LockOnSystem) (o a : Vec3) (t : Target)
    (hv : sys.isVisible o a t.position) : sys.pickBest o a [t] = some t := by
  rw [LockOnSystem.pickBest]
  simp only [LockOnSystem.pickBestAux]
  rw [if_pos hv, if_pos (bot_lt_score sys o t)]

lemma visW : sysW.isVisible (0, 0, 0) (1, 0, 0) tgtW.position :=
  isVisible_xaxis sysW 100 (by norm_num) (by show (100 : ℝ) ≤ 2000; norm_num)

lemma pickW : sysW.pickBest (0, 0, 0) (1, 0, 0) [tgtW] = some tgtW :=
  pickBest_single sysW _ _ tgtW visW

lemma scoreA_eval : sysC4.score (0, 0, 0) tgtA = ((7 / 30 : ℝ) : EReal) := by
  rw [score_xaxis sysC4 tgtA 1200 (by norm_num) rfl]
  have h : (tgtA.heat_signature / 1200 +
      max (sysC4.max_range - 1200) 0 / max sysC4.max_range (1 / 1000000) : ℝ) = 7 / 30 := by
    show ((40 : ℝ) / 1200 + max ((1500 : ℝ) - 1200) 0 / max (1500 : ℝ) (1 / 1000000)) = 7 / 30
    rw [show ((1500 : ℝ) - 1200) = 300 by norm_num,
      max_eq_left (by norm_num : (0 : ℝ) ≤ 300),
      max_eq_left (by norm_num : (1 / 1000000 : ℝ) ≤ 1500)]
    norm_num
  rw [h]

lemma scoreB_eval : sysC4.score (0, 0, 0) tgtB = ((49 / 60 : ℝ) : EReal) := by
  rw [score_xaxis sysC4 tgtB 300 (by norm_num) rfl]
  have h : (tgtB.heat_signature / 300 +
      max (sysC4.max_range - 300) 0 / max sysC4.max_range (1 / 1000000) : ℝ) = 49 / 60 := by
    show ((5 : ℝ) / 300 + max ((1500 : ℝ) - 300) 0 / max (1500 : ℝ) (1 / 1000000)) = 49 / 60
    rw [show ((1500 : ℝ) - 300) = 1200 by norm_num,
      max_eq_left (by norm_num : (0 : ℝ) ≤ 1200),
      max_eq_left (by norm_num : (1 / 1000000 : ℝ) ≤ 1500)]
    norm_num
  rw [h]

lemma pickBest_C4 : sysC4.pickBest (0, 0, 0) (1, 0, 0) [tgtA, tgtB] = some tgtB := by
  have hvB : sysC4.isVisible (0, 0, 0) (1, 0, 0) tgtB.position :=
    isVisible_xaxis sysC4 300 (by norm_num) (by show (300 : ℝ) ≤ 1500; norm_num)
  have hvA : sysC4.isVisible (0, 0, 0) (1, 0, 0) tgtA.position :=
    isVisible_xaxis sysC4 1200 (by norm_num) (by show (1200 : ℝ) ≤ 1500; norm_num)
  have hAB : sysC4.score (0, 0, 0) tgtA < sysC4.score (0, 0, 0) tgtB := by
    rw [scoreA_eval, scoreB_eval]
    exact_mod_cast (by norm_num : (7 / 30 : ℝ) < 49 / 60)
  have h := pickBest_first_max sysC4 (0, 0, 0) (1, 0, 0) [tgtA] [] tgtB hvB
    (by
      intro u hu hvu
      rcases List.mem_cons.1 hu with rfl | hu'
      · exact le_of_lt hAB
      · rcases List.mem_cons.1 hu' with rfl | hu''
        · exact le_refl _
        · exact absurd hu'' (List.not_mem_nil u))
    (by
      intro u hu hvu
      rcases List.mem_cons.1 hu with rfl | hu'
      · exact hAB
      · exact absurd hu' (List.not_mem_nil u))
  exact h

lemma pickC6 : sysC6.pickBest (0, 0, 0) (1, 0, 0) [tgtW] = some tgtW :=
  pickBest_single sysC6 _ _ tgtW
    (isVisible_xaxis sysC6 100 (by norm_num) (by show (100 : ℝ) ≤ 2000; norm_num))

/-! ### Event-trace analysis of the controller bridge -/

/-- Exact shape of the lock-transition callbacks of one `step`. -/
lemma stepEvents_filter (p s : LockState) :
    ((stepEvents p s).filter isOnLockEvent).length
        = (if p.locked = false ∧ s.locked = true ∧ s.target.isSome then 1 else 0) ∧
      ((stepEvents p s).filter isOnLockLostEvent).length
        = (if p.locked = true ∧ s.locked = false then 1 else 0) ∧
      (p.locked = true → s.locked = false →
        (stepEvents p s).filter isOnLockLostEvent = [CtrlEvent.onLockLost p.target]) := by
  rcases hp : p.locked <;> rcases hs : s.locked <;> rcases hst : s.target with _ | u <;>
    simp [stepEvents, isOnLockEvent, isOnLockLostEvent, hp, hs, hst,
      List.filter_append]

/-- Concrete evaluation: `sysL`, seeing no target for 11 seconds of clock
against `last_seen = 0`, drops the lock. -/
lemma sysL_drop : sysL.update (0, 0, 0) (1, 0, 0) [] 1
    = { sysL with current_time := sysL.current_time + max 1 0, state := LockState.empty } := by
  refine update_locked_drop sysL (0, 0, 0) (1, 0, 0) [] 1 rfl rfl ?_ ?_
  · rw [pickBest_nil]
    exact sameId_none_left _
  · show (10 : ℝ) + max (1 : ℝ) 0 - 0 > 1 / 2
    rw [max_eq_left (by norm_num : (0 : ℝ) ≤ 1)]
    norm_num

/-! ### The claims -/

/-- C3: for every `LockOnSystem` with `lock_on_time ≥ 0`, the invariant
"locked implies a target is present with progress exactly `lock_on_time`;
positive progress implies a target is present; `0 ≤ progress ≤
lock_on_time`" holds in the initial (empty) state and is preserved by every
`update` call with `dt ≥ 0`, hence in every reachable state. -/
theorem C3_lock_state_invariant :
    (∀ L : ℝ, 0 ≤ L → LockInv L LockState.empty) ∧
    (∀ (sys : LockOnSystem) (o a : Vec3) (tg : List Target) (dt : ℝ),
      0 ≤ sys.lock_on_time → 0 ≤ dt → LockInv sys.lock_on_time sys.state →
      LockInv sys.lock_on_time ((sys.update o a tg dt).state)) := by
  constructor
  · exact fun L hL =>
      ⟨fun h => Bool.noConfusion h, fun h => absurd h (lt_irrefl 0), le_refl 0, hL⟩
  · exact update_preserves_LockInv

/-- Witness for C3: the invariant holds after one tick of a fresh
default-configured engine. -/
theorem C3_witness : LockInv 1 ((sysW.update (0, 0, 0) (1, 0, 0) [] 1).state) :=
  C3_lock_state_invariant.2 sysW (0, 0, 0) (1, 0, 0) [] 1
    (by show (0 : ℝ) ≤ 1; norm_num) (by norm_num)
    (C3_lock_state_invariant.1 1 (by norm_num))

/-- C2: locked with a non-matching (or absent) best candidate, a single
`update` resets to the empty state exactly when the post-advance clock
minus `last_seen` strictly exceeds `lost_lock_timeout`, and otherwise
leaves the `LockState` completely unchanged; consequently occlusion whose
total clamped duration stays within the timeout preserves the lock
unchanged over any run. -/
theorem C2_occlusion_tolerance :
    (∀ (sys : LockOnSystem) (o a : Vec3) (tg : List Target) (dt : ℝ) (u : Target),
      sys.state.target = some u → sys.state.locked = true →
      (∀ b, sys.pickBest o a tg = some b → b.identifier ≠ u.identifier) →
      ((sys.current_time + max dt 0 - sys.state.last_seen > sys.lost_lock_timeout →
          (sys.update o a tg dt).state = LockState.empty) ∧
        (sys.current_time + max dt 0 - sys.state.last_seen ≤ sys.lost_lock_timeout →
          (sys.update o a tg dt).state = sys.state))) ∧
    (∀ (sys : LockOnSystem) (inputs : List TickInput) (u : Target),
      sys.state.target = some u → sys.state.locked = true →
      (∀ i ∈ inputs, ∀ b, sys.pickBest i.origin i.aim i.targets = some b →
        b.identifier ≠ u.identifier) →
      sys.current_time + sumClampDt inputs - sys.state.last_seen
        ≤ sys.lost_lock_timeout →
      (sys.run inputs).state = sys.state) := by
  constructor
  · intro sys o a tg dt u ht hl hnb
    have hnm : ¬ sameId (sys.pickBest o a tg) sys.state.target := by
      rw [ht]
      cases hpb : sys.pickBest o a tg with
      | none => exact sameId_none_left _
      | some b => exact fun hs => hnb b hpb hs
    have hts : sys.state.target.isSome := by rw [ht]; rfl
    constructor
    · intro hto
      rw [update_locked_drop sys o a tg dt hl hts hnm hto]
    · intro hto
      rw [update_locked_keep sys o a tg dt hl hts hnm (not_lt.2 hto)]
  · exact fun sys inputs u ht hl => run_locked_occluded inputs sys u ht hl

/-- Witness for C2: `sysL` loses its lock after 11 seconds of clock with an
empty target list against a 0.5-second timeout. -/
theorem C2_witness : (sysL.update (0, 0, 0) (1, 0, 0) [] 1).state = LockState.empty :=
  (C2_occlusion_tolerance.1 sysL (0, 0, 0) (1, 0, 0) [] 1 tgtW rfl rfl
    (fun b hb => by rw [pickBest_nil] at hb; cases hb)).1
    (by
      show (10 : ℝ) + max (1 : ℝ) 0 - 0 > 1 / 2
      rw [max_eq_left (by norm_num : (0 : ℝ) ≤ 1)]
      norm_num)

/-- C10: from a locked state with a target, one `update` call yields
either a state still locked on a target with the same identifier or the
empty `LockState`; in particular it never produces an unlocked state with
positive progress. -/
theorem C10_no_lock_transfer :
    ∀ (sys : LockOnSystem) (o a : Vec3) (tg : List Target) (dt : ℝ) (u : Target),
      sys.state.target = some u → sys.state.locked = true →
      (((sys.update o a tg dt).state.locked = true ∧
          ∃ v, (sys.update o a tg dt).state.target = some v ∧
            v.identifier = u.identifier) ∨
        (sys.update o a tg dt).state = LockState.empty) ∧
      ¬ ((sys.update o a tg dt).state.locked = false ∧
          0 < (sys.update o a tg dt).state.progress) := by
  intro sys o a tg dt u ht hl
  by_cases hm : sameId (sys.pickBest o a tg) sys.state.target
  · rw [update_locked_refresh sys o a tg dt hl hm]
    rcases hpb : sys.pickBest o a tg with _ | b
    · rw [hpb, ht] at hm
      exact absurd hm (sameId_none_left _)
    · have hid : b.identifier = u.identifier := by rwa [hpb, ht] at hm
      constructor
      · left
        exact ⟨by simpa using hl, b, by simp [hpb], hid⟩
      · rintro ⟨hf, -⟩
        simp only at hf
        exact Bool.false_ne_true (hf.symm.trans hl)
  · have hts : sys.state.target.isSome := by rw [ht]; rfl
    by_cases hto : sys.current_time + max dt 0 - sys.state.last_seen
        > sys.lost_lock_timeout
    · rw [update_locked_drop sys o a tg dt hl hts hm hto]
      refine ⟨Or.inr rfl, ?_⟩
      rintro ⟨-, hp⟩
      exact absurd hp (by norm_num [LockState.empty])
    · rw [update_locked_keep sys o a tg dt hl hts hm hto]
      refine ⟨Or.inl ⟨hl, u, ht, rfl⟩, ?_⟩
      rintro ⟨hf, -⟩
      exact Bool.false_ne_true (hf.symm.trans hl)

/-- Witness for C10: the locked `sysL`, occluded past the timeout, lands in
the empty state (the right disjunct). -/
theorem C10_witness :
    ((sysL.update (0, 0, 0) (1, 0, 0) [] 1).state.locked = true ∧
        ∃ v, (sysL.update (0, 0, 0) (1, 0, 0) [] 1).state.target = some v ∧
          v.identifier = tgtW.identifier) ∨
      (sysL.update (0, 0, 0) (1, 0, 0) [] 1).state = LockState.empty :=
  (C10_no_lock_transfer sysL (0, 0, 0) (1, 0, 0) [] 1 tgtW rfl rfl).1

/-- C9: `engine_report` fails with the unconnected-resource error exactly
when no engine is attached; with an engine attached it returns a report
whose `reserve_seconds` is `fuel_remaining / consumption_rate` when the
consumption rate is positive and `none` when it is non-positive. -/
theorem C9_engine_report :
    ∀ core : MissileCore,
      ((∃ e : String, core.engine_report = Except.error e) ↔ core.engine = none) ∧
      (core.engine = none →
        core.engine_report = Except.error "Engine module not connected") ∧
      (∀ eng : EngineModule, core.engine = some eng →
        core.engine_report = Except.ok
          { fuel_remaining := eng.fuel_remaining
            fuel_capacity := eng.fuel_capacity
            consumption_rate := eng.current_fuel_consumption
            reserve_seconds :=
              if 0 < eng.current_fuel_consumption
              then some (eng.fuel_remaining / eng.current_fuel_consumption)
              else none }) := by
  intro core
  rcases hce : core.engine with _ | e
  · refine ⟨?_, fun _ => by simp [MissileCore.engine_report, hce], ?_⟩
    · simp [MissileCore.engine_report, hce]
    · intro eng heq
      cases heq
  · refine ⟨?_, fun h => Option.noConfusion h, ?_⟩
    · simp [MissileCore.engine_report, hce]
    · intro eng heq
      obtain rfl : e = eng := Option.some.inj heq
      simp only [MissileCore.engine_report, hce]
      by_cases h : e.current_fuel_consumption ≤ 0
      · rw [if_pos h, if_neg (not_lt.2 h)]
      · rw [if_neg h, if_pos (not_le.1 h)]

/-- Witness for C9: the sample engine (50 units left at 5 per second)
reports a 10-second reserve. -/
theorem C9_witness : coreW.engine_report = Except.ok
    { fuel_remaining := 50, fuel_capacity := 100, consumption_rate := 5
      reserve_seconds := some 10 } := by
  have h := (C9_engine_report coreW).2.2 engW rfl
  rw [h, if_pos (show (0 : ℝ) < engW.current_fuel_consumption by norm_num [engW])]
  norm_num [engW]

/-- C1: from a fresh (empty) lock state, a single candidate that is the
best visible candidate on every tick of a non-empty run with non-negative
`dt`s locks exactly when the summed `dt` reaches `lock_on_time`, with
progress clamped to `lock_on_time`; any strictly smaller sum leaves the
engine unlocked.  Switching to a best candidate with a different
identifier mid-acquisition restarts progress from 0 (the returned progress
is this tick's `dt`, clamped, independent of the previous progress). -/
theorem C1_timed_acquisition :
    (∀ (sys : LockOnSystem) (inputs : List TickInput) (t : Target),
      sys.state = LockState.empty → inputs ≠ [] →
      (∀ i ∈ inputs, sys.pickBest i.origin i.aim i.targets = some t) →
      (∀ i ∈ inputs, 0 ≤ i.dt) →
      ((sumDt inputs = sys.lock_on_time →
          (sys.run inputs).state.locked = true ∧
            (sys.run inputs).state.progress = sys.lock_on_time) ∧
        (sumDt inputs < sys.lock_on_time → (sys.run inputs).state.locked = false))) ∧
    (∀ (sys : LockOnSystem) (o a : Vec3) (tg : List Target) (dt : ℝ) (t u : Target),
      sys.state.locked = false → sys.state.target = some u →
      sys.pickBest o a tg = some t → t.identifier ≠ u.identifier →
      (sys.update o a tg dt).state.progress =
        (if sys.lock_on_time ≤ dt then sys.lock_on_time else dt)) := by
  constructor
  · intro sys inputs t hempty hne hbest hdt
    have ht : sys.state.target = none := by rw [hempty]; rfl
    have hl : sys.state.locked = false := by rw [hempty]; rfl
    obtain ⟨a1, a2, a3⟩ := run_from_none inputs sys t ht hl hne hbest hdt
    constructor
    · intro hsum
      refine ⟨a2.2 (ge_of_eq hsum), ?_⟩
      rw [a3, if_pos (le_of_eq hsum.symm)]
    · intro hlt
      cases hcl : (sys.run inputs).state.locked with
      | false => rfl
      | true => exact absurd (a2.1 hcl) (not_le.2 hlt)
  · intro sys o a tg dt t u hl ht hb hid
    have hns : ¬ sameId (some t) sys.state.target := by
      rw [ht]
      exact fun h => hid h
    by_cases hge : (0 : ℝ) + dt ≥ sys.lock_on_time
    · rw [update_switch_lock sys o a tg dt t hl hb hns hge,
        if_pos (by linarith : sys.lock_on_time ≤ dt)]
    · rw [update_switch_cont sys o a tg dt t hl hb hns hge,
        if_neg (fun h => hge (by linarith))]
      exact zero_add dt

/-- Witness for C1: two half-second ticks of visibility lock the fresh
default engine (lock_on_time 1) with progress exactly 1. -/
theorem C1_witness :
    (sysW.run ticksW).state.locked = true ∧ (sysW.run ticksW).state.progress = 1 := by
  have hbest : ∀ i ∈ ticksW, sysW.pickBest i.origin i.aim i.targets = some tgtW := by
    intro i hi
    rcases List.mem_cons.1 hi with rfl | hi'
    · exact pickW
    · rcases List.mem_cons.1 hi' with rfl | hi''
      · exact pickW
      · exact absurd hi'' (List.not_mem_nil i)
  have hdt : ∀ i ∈ ticksW, 0 ≤ i.dt := by
    intro i hi
    rcases List.mem_cons.1 hi with rfl | hi'
    · show (0 : ℝ) ≤ 1 / 2; norm_num
    · rcases List.mem_cons.1 hi' with rfl | hi''
      · show (0 : ℝ) ≤ 1 / 2; norm_num
      · exact absurd hi'' (List.not_mem_nil i)
  have hsum : sumDt ticksW = sysW.lock_on_time := by
    show (1 / 2 + (1 / 2 + 0) : ℝ) = 1
    norm_num
  exact (C1_timed_acquisition.1 sysW ticksW tgtW rfl (by simp [ticksW])
    hbest hdt).1 hsum

/-- C4: the score of a target is `heat_signature / distance +
max(max_range - distance, 0) / max(max_range, epsilon)` with epsilon
`10⁻⁶`, and `⊤` (the model of `float("inf")`) at distance 0; the best
candidate is the first visible target whose score weakly dominates all
visible targets and strictly dominates all earlier visible ones (first
kept on ties); in the spec's example (max_range 1500, A at 1200 with heat
40 versus B at 300 with heat 5, both on the aim axis) B is selected. -/
theorem C4_scoring_and_selection :
    (∀ (sys : LockOnSystem) (o : Vec3) (t : Target),
      (dist3 o t.position = 0 → sys.score o t = ⊤) ∧
      (dist3 o t.position ≠ 0 →
        sys.score o t = ((t.heat_signature / dist3 o t.position +
          max (sys.max_range - dist3 o t.position) 0 /
            max sys.max_range (1 / 1000000) : ℝ) : EReal))) ∧
    (∀ (sys : LockOnSystem) (o a : Vec3) (l1 l2 : List Target) (t : Target),
      sys.isVisible o a t.position →
      (∀ u ∈ l1 ++ t :: l2, sys.isVisible o a u.position →
        sys.score o u ≤ sys.score o t) →
      (∀ u ∈ l1, sys.isVisible o a u.position → sys.score o u < sys.score o t) →
      sys.pickBest o a (l1 ++ t :: l2) = some t) ∧
    sysC4.pickBest (0, 0, 0) (1, 0, 0) [tgtA, tgtB] = some tgtB := by
  refine ⟨?_, pickBest_first_max, pickBest_C4⟩
  intro sys o t
  constructor
  · intro h
    rw [LockOnSystem.score, if_pos h]
  · intro h
    rw [LockOnSystem.score, if_neg h]

/-- Witness for C4: the selection characterization applied to the spec's
concrete example, with target A (score 7/30) beaten by target B
(score 49/60). -/
theorem C4_witness :
    sysC4.pickBest (0, 0, 0) (1, 0, 0) ([tgtA] ++ tgtB :: []) = some tgtB := by
  have hvB : sysC4.isVisible (0, 0, 0) (1, 0, 0) tgtB.position :=
    isVisible_xaxis sysC4 300 (by norm_num) (by show (300 : ℝ) ≤ 1500; norm_num)
  have hAB : sysC4.score (0, 0, 0) tgtA < sysC4.score (0, 0, 0) tgtB := by
    rw [scoreA_eval, scoreB_eval]
    exact_mod_cast (by norm_num : (7 / 30 : ℝ) < 49 / 60)
  refine C4_scoring_and_selection.2.1 sysC4 (0, 0, 0) (1, 0, 0) [tgtA] [] tgtB hvB
    ?_ ?_
  · intro u hu hvu
    rcases List.mem_cons.1 hu with rfl | hu'
    · exact le_of_lt hAB
    · rcases List.mem_cons.1 hu' with rfl | hu''
      · exact le_refl _
      · exact absurd hu'' (List.not_mem_nil u)
  · intro u hu hvu
    rcases List.mem_cons.1 hu with rfl | hu'
    · exact hAB
    · exact absurd hu' (List.not_mem_nil u)

/-- C5: visibility holds exactly when the distance is positive, at most
`max_range`, and the normalized-direction dot product is at least the
cosine of the field-of-view half-angle (converted to radians); a target at
the sensor origin is never visible; `pickBest` returns only visible
members of the input; and any target newly installed as tracked/locked by
`update` was the visible best candidate (the only other possibility is
that it was already the tracked target before the call). -/
theorem C5_visibility_gate :
    (∀ (sys : LockOnSystem) (origin aim pos : Vec3),
      sys.isVisible origin aim pos ↔
        (0 < norm3 (sub3 pos origin) ∧ norm3 (sub3 pos origin) ≤ sys.max_range ∧
          dot3 (normalize3 aim) (normalize3 (sub3 pos origin)) ≥
            Real.cos (radiansOf sys.fov_deg))) ∧
    (∀ (sys : LockOnSystem) (origin aim : Vec3), ¬ sys.isVisible origin aim origin) ∧
    (∀ (sys : LockOnSystem) (o a : Vec3) (ts : List Target) (t : Target),
      sys.pickBest o a ts = some t → t ∈ ts ∧ sys.isVisible o a t.position) ∧
    (∀ (sys : LockOnSystem) (o a : Vec3) (tg : List Target) (dt : ℝ) (t : Target),
      (sys.update o a tg dt).state.target = some t →
      sys.state.target = some t ∨ (t ∈ tg ∧ sys.isVisible o a t.position)) := by
  have hzero : ∀ v : Vec3, norm3 (sub3 v v) = 0 := by
    intro v
    have h : sub3 v v = ((0 : ℝ), (0 : ℝ), (0 : ℝ)) := by simp [sub3]
    rw [h, norm3]
    simp [dot3]
  refine ⟨?_, ?_, pickBest_mem, ?_⟩
  · intro sys origin aim pos
    constructor
    · rintro ⟨h1, h2⟩
      push_neg at h1
      exact ⟨lt_of_le_of_ne (Real.sqrt_nonneg _) (Ne.symm h1.2), h1.1, h2⟩
    · rintro ⟨h0, hle, hdot⟩
      refine ⟨?_, hdot⟩
      rintro (h | h)
      · exact absurd h (not_lt.2 hle)
      · exact h0.ne' h
  · rintro sys origin aim ⟨h1, -⟩
    exact h1 (Or.inr (hzero origin))
  · intro sys o a tg dt t h
    simp only [LockOnSystem.update] at h
    split_ifs at h <;> simp only at h <;>
      first
        | (left; exact h)
        | (right; exact pickBest_mem sys o a tg t h)
        | (exact absurd h (by simp [LockState.empty]))

/-- Witness for C5: the visibility criterion applied to a point 100 units
down the aim axis of the default engine, and `pickBest` soundness applied
to the singleton list containing `tgtW`. -/
theorem C5_witness :
    sysW.isVisible (0, 0, 0) (1, 0, 0) (100, 0, 0) ∧
      (tgtW ∈ [tgtW] ∧ sysW.isVisible (0, 0, 0) (1, 0, 0) tgtW.position) := by
  have hsub : sub3 ((100 : ℝ), 0, 0) ((0 : ℝ), (0 : ℝ), (0 : ℝ))
      = ((100 : ℝ), 0, 0) := by simp [sub3]
  constructor
  · refine (C5_visibility_gate.1 sysW (0, 0, 0) (1, 0, 0) (100, 0, 0)).2 ⟨?_, ?_, ?_⟩
    · rw [hsub, norm3_axis_nonneg 100 (by norm_num)]
      norm_num
    · rw [hsub, norm3_axis_nonneg 100 (by norm_num)]
      show (100 : ℝ) ≤ 2000
      norm_num
    · rw [hsub, normalize3_axis 1 one_pos, normalize3_axis 100 (by norm_num)]
      have hd : dot3 (1, 0, 0) (1, 0, 0) = 1 := by simp [dot3]
      rw [ge_iff_le, hd]
      exact Real.cos_le_one _
  · exact C5_visibility_gate.2.2.1 sysW (0, 0, 0) (1, 0, 0) [tgtW] tgtW pickW

/-- C7: in any `step` call, `onLock` fires exactly once when the previous
snapshot was unlocked and the new state is locked with a target present
(never otherwise); `onLockLost` fires exactly once when the previous
snapshot was locked and the new state is unlocked, carrying the previous
snapshot's target (never otherwise); and the two never fire in the same
call. -/
theorem C7_bridge_event_discipline :
    ∀ (link : LockOnControllerLink) (o a : Vec3) (tg : List Target) (dt : ℝ),
      (((link.step o a tg dt).2.2.filter isOnLockEvent).length
          = (if link.last_state.locked = false ∧
              (link.step o a tg dt).2.1.locked = true ∧
              (link.step o a tg dt).2.1.target.isSome then 1 else 0)) ∧
      (((link.step o a tg dt).2.2.filter isOnLockLostEvent).length
          = (if link.last_state.locked = true ∧
              (link.step o a tg dt).2.1.locked = false then 1 else 0)) ∧
      (link.last_state.locked = true → (link.step o a tg dt).2.1.locked = false →
        (link.step o a tg dt).2.2.filter isOnLockLostEvent
          = [CtrlEvent.onLockLost link.last_state.target]) ∧
      ¬ (0 < ((link.step o a tg dt).2.2.filter isOnLockEvent).length ∧
          0 < ((link.step o a tg dt).2.2.filter isOnLockLostEvent).length) := by
  intro link o a tg dt
  have h := stepEvents_filter link.last_state (link.lock_on.update o a tg dt).state
  refine ⟨h.1, h.2.1, h.2.2, ?_⟩
  rintro ⟨ha, hb⟩
  have ha' : 0 < ((stepEvents link.last_state
      (link.lock_on.update o a tg dt).state).filter isOnLockEvent).length := ha
  have hb' : 0 < ((stepEvents link.last_state
      (link.lock_on.update o a tg dt).state).filter isOnLockLostEvent).length := hb
  rw [h.1] at ha'
  rw [h.2.1] at hb'
  split_ifs at ha' with h1
  · split_ifs at hb' with h2
    · exact Bool.false_ne_true (h1.1.symm.trans h2.1)
    · exact absurd hb' (by norm_num)
  · exact absurd ha' (by norm_num)

/-- Witness for C7: in the lock-losing step of `linkL` with no targets,
`onLockLost` fires exactly once, carrying the lost target `tgtW`. -/
theorem C7_witness :
    (linkL.step (0, 0, 0) (1, 0, 0) [] 1).2.2.filter isOnLockLostEvent
      = [CtrlEvent.onLockLost (some tgtW)] := by
  have hnl : (linkL.step (0, 0, 0) (1, 0, 0) [] 1).2.1.locked = false := by
    show ((linkL.lock_on.update (0, 0, 0) (1, 0, 0) [] 1).state).locked = false
    rw [show linkL.lock_on = sysL from rfl, sysL_drop]
    rfl
  exact (C7_bridge_event_discipline linkL (0, 0, 0) (1, 0, 0) [] 1).2.2.1 rfl hnl

/-- C8: when a step goes from a locked previous snapshot with a target to
an unlocked new state with no target, the controller receives exactly
`setTrackingTarget none` (from the identifier-diff check), then
`onLockLost` with the previous target, then `setTrackingTarget none`
again from the lock-lost branch — the null tracking notification is sent
twice in that single step. -/
theorem C8_double_null_tracking :
    ∀ (link : LockOnControllerLink) (o a : Vec3) (tg : List Target) (dt : ℝ)
      (u : Target),
      link.last_state.locked = true → link.last_state.target = some u →
      (link.step o a tg dt).2.1.locked = false →
      (link.step o a tg dt).2.1.target = none →
      (link.step o a tg dt).2.2 =
        [CtrlEvent.setTrackingTarget none, CtrlEvent.onLockLost (some u),
          CtrlEvent.setTrackingTarget none] := by
  intro link o a tg dt u hpl hpt hnl hnt
  have hnl' : (link.lock_on.update o a tg dt).state.locked = false := hnl
  have hnt' : (link.lock_on.update o a tg dt).state.target = none := hnt
  show stepEvents link.last_state (link.lock_on.update o a tg dt).state = _
  simp [stepEvents, targetChanged, hnl', hnt', hpl, hpt]

/-- Witness for C8: the lock-losing step of `linkL` with no targets emits
exactly the three callbacks, with `setTrackingTarget none` duplicated. -/
theorem C8_witness :
    (linkL.step (0, 0, 0) (1, 0, 0) [] 1).2.2 =
      [CtrlEvent.setTrackingTarget none, CtrlEvent.onLockLost (some tgtW),
        CtrlEvent.setTrackingTarget none] := by
  have hnl : (linkL.step (0, 0, 0) (1, 0, 0) [] 1).2.1.locked = false := by
    show ((linkL.lock_on.update (0, 0, 0) (1, 0, 0) [] 1).state).locked = false
    rw [show linkL.lock_on = sysL from rfl, sysL_drop]
    rfl
  have hnt : (linkL.step (0, 0, 0) (1, 0, 0) [] 1).2.1.target = none := by
    show ((linkL.lock_on.update (0, 0, 0) (1, 0, 0) [] 1).state).target = none
    rw [show linkL.lock_on = sysL from rfl, sysL_drop]
    rfl
  exact C8_double_null_tracking linkL (0, 0, 0) (1, 0, 0) [] 1 tgtW rfl rfl hnl hnt

/-- Concrete evaluation: a tick of `-1/2` seconds while tracking `tgtW`
with progress 1/4 drives progress to `-1/4` (raw `dt` is added). -/
lemma C6_update_neg :
    (sysC6.update (0, 0, 0) (1, 0, 0) [tgtW] (-(1 / 2))).state.progress = -(1 / 4) := by
  have hm : sameId (sysC6.pickBest (0, 0, 0) (1, 0, 0) [tgtW]) sysC6.state.target := by
    rw [pickC6]; exact rfl
  rw [update_tracking_cont sysC6 (0, 0, 0) (1, 0, 0) [tgtW] (-(1 / 2)) rfl hm
    (by show ¬ ((1 / 4 : ℝ) + -(1 / 2) ≥ 1); norm_num)]
  show (1 / 4 : ℝ) + -(1 / 2) = -(1 / 4)
  norm_num

/-- Concrete evaluation: the same tick with `dt = 0` keeps progress 1/4. -/
lemma C6_update_zero :
    (sysC6.update (0, 0, 0) (1, 0, 0) [tgtW] 0).state.progress = 1 / 4 := by
  have hm : sameId (sysC6.pickBest (0, 0, 0) (1, 0, 0) [tgtW]) sysC6.state.target := by
    rw [pickC6]; exact rfl
  rw [update_tracking_cont sysC6 (0, 0, 0) (1, 0, 0) [tgtW] 0 rfl hm
    (by show ¬ ((1 / 4 : ℝ) + 0 ≥ 1); norm_num)]
  show (1 / 4 : ℝ) + 0 = 1 / 4
  norm_num

/-- C6 counterexample: with a tracked matching candidate, a call with
`dt = -1/2` does not produce the same `LockState` as the call with
`dt = 0` — progress becomes `-1/4` instead of staying `1/4`, because the
code adds the raw (unclamped) `dt` to progress. -/
theorem C6_counterexample :
    ¬ ((sysC6.update (0, 0, 0) (1, 0, 0) [tgtW] (-(1 / 2))).state
        = (sysC6.update (0, 0, 0) (1, 0, 0) [tgtW] 0).state) := by
  intro h
  have hp := congrArg LockState.progress h
  rw [C6_update_neg, C6_update_zero] at hp
  norm_num at hp

/-- C6 amended: for `dt < 0` (given the invariant that a locked state has
a target), the internal clock does not advance, and the call coincides
with the `dt = 0` call whenever the engine is locked or no best candidate
exists; in the unlocked branch with a best candidate the tracked target
and `last_seen` still agree with the `dt = 0` call, but the raw negative
`dt` is added to the progress base (previous progress on a match, 0 after
a switch), so progress — and with it the lock decision — follows the
decreased value instead of the `dt = 0` value. -/
theorem C6_negative_dt_amended :
    ∀ (sys : LockOnSystem) (o a : Vec3) (tg : List Target) (dt : ℝ),
      dt < 0 → (sys.state.locked = true → sys.state.target.isSome) →
      ((sys.update o a tg dt).current_time = sys.current_time ∧
        (sys.update o a tg 0).current_time = sys.current_time ∧
        (sys.state.locked = true → sys.update o a tg dt = sys.update o a tg 0) ∧
        (sys.pickBest o a tg = none → sys.update o a tg dt = sys.update o a tg 0) ∧
        (∀ b, sys.state.locked = false → sys.pickBest o a tg = some b →
          ((sys.update o a tg dt).state.target = (sys.update o a tg 0).state.target ∧
            (sys.update o a tg dt).state.last_seen
              = (sys.update o a tg 0).state.last_seen ∧
            ((sys.update o a tg dt).state.locked = true ↔
              sys.lock_on_time ≤ sys.trackBase o a tg + dt) ∧
            ((sys.update o a tg 0).state.locked = true ↔
              sys.lock_on_time ≤ sys.trackBase o a tg) ∧
            (sys.update o a tg dt).state.progress =
              (if sys.lock_on_time ≤ sys.trackBase o a tg + dt then sys.lock_on_time
                else sys.trackBase o a tg + dt) ∧
            (sys.update o a tg 0).state.progress =
              (if sys.lock_on_time ≤ sys.trackBase o a tg then sys.lock_on_time
                else sys.trackBase o a tg)))) := by
  intro sys o a tg dt hdt hti
  have hct : sys.current_time + max dt 0 = sys.current_time + max (0 : ℝ) 0 := by
    rw [max_eq_right hdt.le, max_self]
  have hlocked : sys.state.locked = true → sys.update o a tg dt = sys.update o a tg 0 := by
    intro hl
    have hts := hti hl
    by_cases hm : sameId (sys.pickBest o a tg) sys.state.target
    · rw [update_locked_refresh sys o a tg dt hl hm,
        update_locked_refresh sys o a tg 0 hl hm, hct]
    · by_cases hto : sys.current_time + max dt 0 - sys.state.last_seen
          > sys.lost_lock_timeout
      · have hto0 : sys.current_time + max (0 : ℝ) 0 - sys.state.last_seen
            > sys.lost_lock_timeout := by rw [← hct]; exact hto
        rw [update_locked_drop sys o a tg dt hl hts hm hto,
          update_locked_drop sys o a tg 0 hl hts hm hto0, hct]
      · have hto0 : ¬ (sys.current_time + max (0 : ℝ) 0 - sys.state.last_seen
            > sys.lost_lock_timeout) := by rw [← hct]; exact hto
        rw [update_locked_keep sys o a tg dt hl hts hm hto,
          update_locked_keep sys o a tg 0 hl hts hm hto0, hct]
  refine ⟨?_, ?_, hlocked, ?_, ?_⟩
  · rw [update_current_time, max_eq_right hdt.le, add_zero]
  · rw [update_current_time, max_self, add_zero]
  · intro hb
    by_cases hl : sys.state.locked = true
    · exact hlocked hl
    · have hl' : sys.state.locked = false := by
        rwa [Bool.not_eq_true] at hl
      rw [update_unlocked_nobest sys o a tg dt hl' hb,
        update_unlocked_nobest sys o a tg 0 hl' hb, hct]
  · intro b hl hb
    by_cases hm : sameId (some b) sys.state.target
    · have hTB : sys.trackBase o a tg = sys.state.progress := by
        rw [LockOnSystem.trackBase, if_pos (by rwa [hb])]
      have hm' : sameId (sys.pickBest o a tg) sys.state.target := by rwa [hb]
      rw [hTB]
      by_cases hge : sys.state.progress + dt ≥ sys.lock_on_time
      · have hge0 : sys.state.progress + 0 ≥ sys.lock_on_time := by linarith
        rw [update_tracking_lock sys o a tg dt hl hm' hge,
          update_tracking_lock sys o a tg 0 hl hm' hge0]
        exact ⟨rfl, by rw [hct], iff_of_true rfl hge,
          iff_of_true rfl (by linarith), by rw [if_pos hge], by rw [if_pos (by linarith)]⟩
      · by_cases hge0 : sys.state.progress + 0 ≥ sys.lock_on_time
        · rw [update_tracking_cont sys o a tg dt hl hm' hge,
            update_tracking_lock sys o a tg 0 hl hm' hge0]
          refine ⟨rfl, by rw [hct], ?_, iff_of_true rfl (by linarith), ?_, ?_⟩
          · exact iff_of_false (fun h => Bool.false_ne_true (hl.symm.trans h)) hge
          · rw [if_neg hge]
          · rw [if_pos (by linarith)]
        · rw [update_tracking_cont sys o a tg dt hl hm' hge,
            update_tracking_cont sys o a tg 0 hl hm' hge0]
          refine ⟨rfl, by rw [hct], ?_, ?_, ?_, ?_⟩
          · exact iff_of_false (fun h => Bool.false_ne_true (hl.symm.trans h)) hge
          · exact iff_of_false (fun h => Bool.false_ne_true (hl.symm.trans h))
              (fun hcon => hge0 (by rw [add_zero]; exact hcon))
          · rw [if_neg hge]
          · rw [if_neg (fun hcon => hge0 (show sys.state.progress + 0
              ≥ sys.lock_on_time by rw [add_zero]; exact hcon))]
            exact add_zero _
    · have hTB : sys.trackBase o a tg = 0 := by
        rw [LockOnSystem.trackBase, if_neg (by rwa [hb])]
      rw [hTB]
      by_cases hge : (0 : ℝ) + dt ≥ sys.lock_on_time
      · have hge0 : (0 : ℝ) + 0 ≥ sys.lock_on_time := by linarith
        rw [update_switch_lock sys o a tg dt b hl hb hm hge,
          update_switch_lock sys o a tg 0 b hl hb hm hge0]
        exact ⟨rfl, by rw [hct], iff_of_true rfl hge,
          iff_of_true rfl (by linarith), by rw [if_pos hge], by rw [if_pos (by linarith)]⟩
      · by_cases hge0 : (0 : ℝ) + 0 ≥ sys.lock_on_time
        · rw [update_switch_cont sys o a tg dt b hl hb hm hge,
            update_switch_lock sys o a tg 0 b hl hb hm hge0]
          refine ⟨rfl, by rw [hct], ?_, iff_of_true rfl (by linarith), ?_, ?_⟩
          · exact iff_of_false (fun h => Bool.false_ne_true (hl.symm.trans h)) hge
          · rw [if_neg hge]
          · rw [if_pos (by linarith)]
        · rw [update_switch_cont sys o a tg dt b hl hb hm hge,
            update_switch_cont sys o a tg 0 b hl hb hm hge0]
          refine ⟨rfl, by rw [hct], ?_, ?_, ?_, ?_⟩
          · exact iff_of_false (fun h => Bool.false_ne_true (hl.symm.trans h)) hge
          · exact iff_of_false (fun h => Bool.false_ne_true (hl.symm.trans h))
              (fun hcon => hge0 (by rw [add_zero]; exact hcon))
          · rw [if_neg hge]
          · rw [if_neg (fun hcon => hge0 (show (0 : ℝ) + 0
              ≥ sys.lock_on_time by rw [add_zero]; exact hcon))]
            exact add_zero _

/-- Witness for C6's amended theorem: on `sysC6` with `dt = -1/2` the
internal clock does not advance. -/
theorem C6_witness :
    (sysC6.update (0, 0, 0) (1, 0, 0) [tgtW] (-(1 / 2))).current_time
      = sysC6.current_time :=
  (C6_negative_dt_amended sysC6 (0, 0, 0) (1, 0, 0) [tgtW] (-(1 / 2))
    (by norm_num) (fun h => Bool.noConfusion h)).1

end AntiAir
